import Mathlib

/-!
Verification development for the template directive engine of the
claude-unofficial-api CLI (src/cli/index.js).

The engine is shallowly embedded: the four regex passes of `getPrompt`
are implemented as specialised backtracking matchers with the exact
semantics of the JavaScript patterns, the evaluator loop and the command
dispatcher `runCommand` are translated statement by statement, and the
orchestrator `runPrompt` is modelled as a function producing a transcript
of conversation events (`startConversation` / `sendMessage`).

Host capabilities that the code calls out to (the file system, `eval`,
the HTTP chat client, `Math.random`) are supplied by an explicit
environment record, mirroring the spec's boundary in section 6.
-/

deriving instance DecidableEq for Except

namespace TemplateEngine

/-- JavaScript values as far as the engine manipulates them: strings,
numbers, booleans, `undefined`, and the backend response object (of which
the code only ever reads the `completion` field). -/
inductive Value where
  | vStr (s : String)
  | vNum (n : Int)
  | vBool (b : Bool)
  | vUndef
  | vCompletion (completion : String)
deriving DecidableEq, Repr

/-- JavaScript string coercion, as performed by `+=` and template literals. -/
def vToString : Value → String
  | .vStr s => s
  | .vNum n => toString n
  | .vBool b => if b then "true" else "false"
  | .vUndef => "undefined"
  | .vCompletion _ => "[object Object]"

/-- JavaScript truthiness. -/
def vTruthy : Value → Bool
  | .vStr s => s ≠ ""
  | .vNum n => n ≠ 0
  | .vBool b => b
  | .vUndef => false
  | .vCompletion _ => true

/-- The mutable variable scope: a JS object, modelled as an association
list with in-place update (existing keys keep their position, new keys
are appended, as JS property order works for string keys). -/
def Scope := List (String × Value)
deriving instance DecidableEq, Repr for Scope

def scopeLookup (s : Scope) (k : String) : Option Value :=
  match s with
  | [] => none
  | (k', v) :: rest => if k' = k then some v else scopeLookup rest k

def scopeSet (s : Scope) (k : String) (v : Value) : Scope :=
  match s with
  | [] => [(k, v)]
  | (k', v') :: rest => if k' = k then (k', v) :: rest else (k', v') :: scopeSet rest k v

/-- `Object.assign(dst, src)`: copy every property of `src` onto `dst`. -/
def scopeAssign (dst src : Scope) : Scope :=
  src.foldl (fun d kv => scopeSet d kv.1 kv.2) dst

/-- A queued template body, as produced by the `followup` and `every`
handlers (`\x7b body: arg \x7d`). -/
structure QItem where
  body : String
deriving DecidableEq, Repr

/-- An attachment, as built by the `file` command. -/
structure Attachment where
  file_name : String
  file_type : String
  file_size : Nat
  extracted_content : String
deriving DecidableEq, Repr

/-- Runtime failures of the engine.  `mismatch` is the structural error
thrown by the block-pass callback (`Unexpected command end`); `typeError`
covers JavaScript TypeErrors such as calling `.replace` or `.split` on
`undefined`; `fileNotFound` is the `readFileSync` failure; `jsError` is a
failure inside the `js` evaluation; `backendFail` is the fatal
`No response` exit when the backend returns no completion;
`fuelExhausted` stands for non-terminating recursion (the JS code has no
recursion bound). -/
inductive Err where
  | mismatch (opened closed : String)
  | typeError (msg : String)
  | fileNotFound (path : String)
  | jsError (msg : String)
  | backendFail
  | fuelExhausted
deriving DecidableEq, Repr

/-- The object returned by a `runCommand` handler.  Every field is
optional, exactly as the JS handlers return objects with differing key
sets; the caller applies defaults with
`result = \x7b body: '', variables: \x7b\x7d, ...result \x7d`. -/
structure CmdResult where
  body : Option Value := none
  value : Option Value := none
  /-- the JS key `variables` (that word is reserved in Lean). -/
  vars : Option Scope := none
  attachments : Option (List Attachment) := none
  followup : Option (List QItem) := none
  every : Option (List QItem) := none
deriving DecidableEq, Repr

/-- Accumulator state of the evaluator loop in `getPrompt`
(`promptText`, `attachments`, `followup`, `every`, `variables`). -/
structure EvalSt where
  text : String
  attachments : List Attachment
  followup : List QItem
  every : List QItem
  vars : Scope
deriving DecidableEq, Repr

/-- The value returned by `getPrompt`:
`\x7b body, attachments, followup, variables, every \x7d`. -/
structure PromptResult where
  body : String
  attachments : List Attachment
  followup : List QItem
  every : List QItem
  /-- the JS key `variables` (that word is reserved in Lean). -/
  vars : Scope
deriving DecidableEq, Repr

/-- External capabilities used by the engine: `readFileSync` for
`import`, the host `eval` for the `js` family, the one-shot
`claude.sendMessage` used by the `claude` command, the conversation
backend's completions (indexed by the order in which messages are sent),
and the `Math.random`-generated attachment name used by `file`. -/
structure Env where
  files : String → Option String
  jsEval : Scope → String → Except String Value
  oneShot : String → Option String
  completions : Nat → Option String
  randName : String

/-! ## Character classes and string helpers (JavaScript semantics) -/

/-- the regex class `[a-z]`. -/
def isLowerAZ (c : Char) : Bool := 'a' ≤ c && c ≤ 'z'

/-- the regex class `\w` (and `[\w_]`, which is the same set). -/
def isWordChar (c : Char) : Bool :=
  ('a' ≤ c && c ≤ 'z') || ('A' ≤ c && c ≤ 'Z') || ('0' ≤ c && c ≤ '9') || c = '_'

/-- the regex class `\s` (ASCII part; the code never feeds it other
whitespace). -/
def isJsSpace (c : Char) : Bool :=
  c = ' ' || c = '\t' || c = '\n' || c = '\r' || c = '\x0b' || c = '\x0c'

/-- the regex class `.` without the `s` flag: anything but a line break. -/
def isDotChar (c : Char) : Bool := !(c = '\n' || c = '\r')

/-- `String.prototype.trim`. -/
def jsTrim (s : String) : String :=
  ((s.data.dropWhile isJsSpace).reverse.dropWhile isJsSpace).reverse.asString

/-- collapse every run of the character `target` to a single occurrence
(`.replace(/X+/g, 'X')`); the flag records whether the previous
character was `target`. -/
def collapseRuns (target : Char) : List Char → Bool → List Char
  | [], _ => []
  | c :: rest, inRun =>
      if c = target then
        if inRun then collapseRuns target rest true
        else c :: collapseRuns target rest true
      else c :: collapseRuns target rest false

/-- final normalisation of the prompt body
(`promptText.replace(/\n+/g, '\n').replace(/ +/g, ' ')`). -/
def collapseBody (s : String) : String :=
  (collapseRuns ' ' (collapseRuns '\n' s.data false) false).asString

/-- `JSON.parse` restricted to what the inline-command regex can capture:
the captured input always starts with a double quote, so only a JSON
string literal can parse.  Returns `none` when `JSON.parse` would throw
(the code catches that and keeps the raw text). -/
def jsonStringBody (l : List Char) : Option (List Char) :=
  match l with
  | [] => none
  | '"' :: [] => some []
  | '\\' :: e :: rest =>
      (jsonStringBody rest).bind fun tail =>
        match e with
        | '"' => some ('"' :: tail)
        | '\\' => some ('\\' :: tail)
        | '/' => some ('/' :: tail)
        | 'b' => some ('\x08' :: tail)
        | 'f' => some ('\x0c' :: tail)
        | 'n' => some ('\n' :: tail)
        | 'r' => some ('\r' :: tail)
        | 't' => some ('\t' :: tail)
        | _ => none
  | c :: rest =>
      if c = '"' then none
      else (jsonStringBody rest).map fun tail => c :: tail

/-- `JSON.parse` on the full captured input (`"..."` with the quotes).
`\uXXXX` escapes are not modelled; none of the analysed inputs use them. -/
def jsonParseString (s : String) : Option String :=
  match s.data with
  | '"' :: rest => (jsonStringBody rest).map List.asString
  | _ => none

/-! ## The four regex matchers

The JavaScript parser applies four regexes with `exec` in a loop.  Each
is implemented here as a matcher that attempts the pattern at the head
of a character list and returns the capture groups and the unconsumed
rest.  Backtracking choice points are explored with `firstSome` in the
exact order a backtracking regex engine visits them (greedy quantifiers
longest-first, lazy quantifiers shortest-first). -/

/-- try alternatives in order, keeping the first success. -/
def firstSome : List α → (α → Option β) → Option β
  | [], _ => none
  | a :: as, f => match f a with
      | some b => some b
      | none => firstSome as f

/-- capture groups of the block regex
`RE.block = /\x7b#(?<command>[a-z]+)(?: (?:(?<var>\w+)=)?(?<param>.+?))?\x7d\s*(?<body>[\s\S]+?)\s*\x7b\/(?<endcmd>\1)\x7d/g`. -/
structure BlockG where
  command : List Char
  varName : Option (List Char)
  param : Option (List Char)
  body : List Char
  endcmd : List Char
deriving DecidableEq, Repr

/-- the tail `\x7b\/(?<endcmd>\1)\x7d` of the block regex: a literal
open brace and slash, the backreference to the `command` capture, and a
closing brace.  The `endcmd` group records the exact characters the
backreference consumed. -/
def matchCloseTag (cmd : List Char) (varName : Option (List Char))
    (param : Option (List Char)) (body : List Char) (s : List Char) :
    Option (BlockG × List Char) :=
  if s.take (cmd.length + 3) = '{' :: '/' :: (cmd ++ ['}']) then
    some ({ command := cmd, varName := varName, param := param, body := body,
            endcmd := (s.drop 2).take cmd.length }, s.drop (cmd.length + 3))
  else none

/-- the part `\s*(?<body>[\s\S]+?)\s*\x7b\/\1\x7d` after the opening
tag's closing brace.  The leading `\s*` is greedy (longest run first),
the body is lazy (shortest first).  The trailing `\s*` is greedy but
needs no backtracking: it is followed by a literal open brace, which is
not a whitespace character, so only the maximal whitespace run can ever
succeed. -/
def blockBodySearch (cmd : List Char) (varName : Option (List Char))
    (param : Option (List Char)) (s : List Char) :
    Option (BlockG × List Char) :=
  let maxW := (s.takeWhile isJsSpace).length
  firstSome ((List.range (maxW + 1)).reverse) fun w =>
    let sB := s.drop w
    firstSome (List.range sB.length) fun j =>
      let bl := j + 1
      let b := sB.take bl
      if b.length = bl then
        let sT := sB.drop bl
        matchCloseTag cmd varName param b (sT.drop ((sT.takeWhile isJsSpace).length))
      else none

/-- the optional parameter `(?<param>.+?)` (lazy, at least one
non-newline character) followed by the closing brace of the open tag and
the rest of the pattern.  On failure at one length the engine retries
with a longer parameter, which may run past a brace. -/
def blockParamSearch (cmd : List Char) (varName : Option (List Char))
    (s : List Char) : Option (BlockG × List Char) :=
  firstSome (List.range s.length) fun i =>
    let pl := i + 1
    let p := s.take pl
    if p.length = pl && p.all isDotChar && (s.drop pl).take 1 = ['}'] then
      blockBodySearch cmd varName (some p) (s.drop (pl + 1))
    else none

/-- backtracking alternation: keep the first alternative when it
matches, otherwise try the second. -/
def orTry (a b : Option α) : Option α :=
  match a with
  | some r => some r
  | none => b

/-- the inner optional `(?<var>\w+)=` after its word characters: the
next character must be the equals sign. -/
def blockVarBranch (cmd : List Char) (w : List Char) :
    List Char → Option (BlockG × List Char)
  | [] => none
  | c :: s4 => if c = '=' then blockParamSearch cmd (some w) s4 else none

/-- the optional parameter group `(?: (?:(?<var>\w+)=)?(?<param>.+?))?`
when taken: a literal space, then the optional `(?<var>\w+)=` (tried
first, as the engine prefers taking a greedy optional group), then the
lazy parameter.  `\w+` before `=` needs no backtracking since shorter
matches would put a word character where `=` is required. -/
def blockTryParam (cmd : List Char) : List Char → Option (BlockG × List Char)
  | [] => none
  | c :: s3 =>
      if c = ' ' then
        orTry
          (if (s3.takeWhile isWordChar).isEmpty then none
           else blockVarBranch cmd (s3.takeWhile isWordChar) (s3.dropWhile isWordChar))
          (blockParamSearch cmd none s3)
      else none

/-- the fallback when the optional parameter group is skipped: the open
tag closes immediately. -/
def blockNoParamBranch (cmd : List Char) : List Char → Option (BlockG × List Char)
  | [] => none
  | c :: s3 => if c = '}' then blockBodySearch cmd none none s3 else none

/-- the block pattern after the command capture: first try the optional
parameter group, then fall back to an immediate closing brace. -/
def blockAfterCmd (cmd : List Char) (s2 : List Char) : Option (BlockG × List Char) :=
  orTry (blockTryParam cmd s2) (blockNoParamBranch cmd s2)

/-- attempt the block regex at the head of `s`.  The command name
`[a-z]+` is greedy; maximal munch is complete because the next required
character (a space or a closing brace) is never a lowercase letter. -/
def matchBlockAt : List Char → Option (BlockG × List Char)
  | c1 :: c2 :: s1 =>
      if c1 = '{' && c2 = '#' then
        if (s1.takeWhile isLowerAZ).isEmpty then none
        else blockAfterCmd (s1.takeWhile isLowerAZ) (s1.dropWhile isLowerAZ)
      else none
  | _ => none

/-- capture groups of the inline-command regex
`RE.inline_command = /\x7b#(?<command>[a-z]+)(?:\s+(?:(?<var>\w+)=)?(?<input>".+"))?\/?\x7d/g`. -/
structure InlineG where
  command : List Char
  varName : Option (List Char)
  input : Option (List Char)
deriving DecidableEq, Repr

/-- the tail `\/?\x7d`: an optional (greedy) slash then the closing
brace. -/
def matchSlashBrace (s : List Char) : Option (List Char) :=
  match s with
  | '/' :: '}' :: rest => some rest
  | '}' :: rest => some rest
  | _ => none

/-- the quoted input `(?<input>".+")` followed by `\/?\x7d`.  The inner
`.+` is greedy, so the engine takes the longest non-newline stretch that
still ends at a quote with the rest of the pattern after it; the capture
includes both quotes. -/
def inlineInputSearch (cmd : List Char) (varName : Option (List Char))
    (s : List Char) : Option (InlineG × List Char) :=
  match s with
  | '"' :: t1 =>
      firstSome ((List.range t1.length).reverse) fun j =>
        let k := j + 1
        let content := t1.take k
        if content.length = k && content.all isDotChar && (t1.drop k).take 1 = ['"'] then
          (matchSlashBrace (t1.drop (k + 1))).map fun rest =>
            ({ command := cmd, varName := varName,
               input := some ('"' :: content ++ ['"']) }, rest)
        else none
  | _ => none

/-- attempt the inline-command regex at the head of `s`.  The optional
group `(?:\s+(?:(?<var>\w+)=)?(?<input>".+"))?` is greedy; the `\s+`
inside needs no backtracking because the following required character
(a word character or a quote) is never whitespace. -/
def matchInlineAt (s : List Char) : Option (InlineG × List Char) :=
  match s with
  | '{' :: '#' :: s1 =>
      let cmd := s1.takeWhile isLowerAZ
      if cmd.isEmpty then none
      else
        let s2 := s1.dropWhile isLowerAZ
        let withInput : Option (InlineG × List Char) :=
          let ws := s2.takeWhile isJsSpace
          if ws.isEmpty then none
          else
            let s3 := s2.dropWhile isJsSpace
            let w := s3.takeWhile isWordChar
            let afterW := s3.dropWhile isWordChar
            let withVar : Option (InlineG × List Char) :=
              if w.isEmpty then none
              else match afterW with
                | '=' :: s4 => inlineInputSearch cmd (some w) s4
                | _ => none
            match withVar with
            | some r => some r
            | none => inlineInputSearch cmd none s3
        match withInput with
        | some r => some r
        | none =>
            (matchSlashBrace s2).map fun rest =>
              ({ command := cmd, varName := none, input := none }, rest)
  | _ => none

/-- capture groups of
`RE.var_write = /\x7b(?<var>[\w_]+)=(?<value>[^\x7d]+)\x7d/g`. -/
structure WriteG where
  name : List Char
  value : List Char
deriving DecidableEq, Repr

/-- attempt the variable-write regex at the head of `s`.  Both `[\w_]+`
and `[^\x7d]+` are greedy with complete maximal munch (`=` is not a word
character, and the character after a maximal `[^\x7d]+` run can only be
a closing brace or the end of input). -/
def matchVarWriteAt (s : List Char) : Option (WriteG × List Char) :=
  match s with
  | '{' :: s1 =>
      let n := s1.takeWhile isWordChar
      if n.isEmpty then none
      else match s1.dropWhile isWordChar with
        | '=' :: s2 =>
            let v := s2.takeWhile (· ≠ '}')
            if v.isEmpty then none
            else match s2.dropWhile (· ≠ '}') with
              | '}' :: rest => some ({ name := n, value := v }, rest)
              | _ => none
        | _ => none
  | _ => none

/-- capture groups of `RE.var_read = /\x7b(?<name>[\w_]+)\x7d/g`. -/
structure ReadG where
  name : List Char
deriving DecidableEq, Repr

/-- attempt the variable-read regex at the head of `s`. -/
def matchVarReadAt (s : List Char) : Option (ReadG × List Char) :=
  match s with
  | '{' :: s1 =>
      let n := s1.takeWhile isWordChar
      if n.isEmpty then none
      else match s1.dropWhile isWordChar with
        | '}' :: rest => some ({ name := n }, rest)
        | _ => none
  | _ => none

/-! ## findReplace and the four passes -/

/-- The typed directive nodes the passes produce (the objects pushed by
the `findReplace` callbacks): `block`, `command`, `variable_set` and
`variable` in the source's `type` tags. -/
inductive Node where
  | block (command : String) (param : Option String) (varName : Option String) (body : String)
  | cmd (command : String) (value : Option String) (varName : Option String)
  | varSet (name : String) (value : String)
  | varRead (name : String)
deriving DecidableEq, Repr

/-- An element of the evolving sequence: leftover literal text or an
already-produced node (`findReplace` pushes string slices and callback
results side by side). -/
def Elem := Sum String Node
deriving instance DecidableEq, Repr for Elem

/-- One `while ((match = regex.exec(str)) !== null)` loop: split a
string into the literal slices between matches and the capture groups of
each match.  `exec` always finds the leftmost next match; the slice
before a match is pushed even when empty, as is the final slice.  The
fuel is the string length, which suffices because every pattern consumes
at least one character. -/
def scanWith (matchAt : List Char → Option (γ × List Char)) :
    Nat → List Char → List Char → List (Sum String γ)
  | 0, s, acc => [Sum.inl ((acc.reverse ++ s).asString)]
  | _ + 1, [], acc => [Sum.inl acc.reverse.asString]
  | n + 1, s@(c :: cs), acc =>
      match matchAt s with
      | some (g, rest) =>
          Sum.inl acc.reverse.asString :: Sum.inr g :: scanWith matchAt n rest []
      | none => scanWith matchAt n cs (c :: acc)

/-- apply the callback to each match of a scanned string, keeping the
literal slices; a callback failure propagates. -/
def handlePieces (handler : γ → Except Err Node) :
    List (Sum String γ) → Except Err (List Elem)
  | [] => .ok []
  | Sum.inl lit :: rest =>
      (handlePieces handler rest).map fun t => Sum.inl lit :: t
  | Sum.inr g :: rest => do
      let nd ← handler g
      let t ← handlePieces handler rest
      .ok (Sum.inr nd :: t)

/-- `findReplace(regex, list, callback)`: non-string elements pass
through untouched, empty strings pass through unscanned, and every other
string is split by `scanWith` with the callback applied to each match.
The block-pass callback can throw. -/
def findReplaceWith (matchAt : List Char → Option (γ × List Char))
    (handler : γ → Except Err Node) (elems : List Elem) :
    Except Err (List Elem) :=
  match elems with
  | [] => .ok []
  | Sum.inr node :: rest =>
      (findReplaceWith matchAt handler rest).map fun tail => Sum.inr node :: tail
  | Sum.inl s :: rest => do
      let tail ← findReplaceWith matchAt handler rest
      if s.length = 0 then
        pure (Sum.inl s :: tail)
      else do
        let pieces ← handlePieces handler (scanWith matchAt (s.data.length + 1) s.data [])
        pure (pieces ++ tail)

/-- the block-pass callback: throws
`Unexpected command end: command != endcmd` when the two names differ,
otherwise builds a `block` node. -/
def blockHandler (g : BlockG) : Except Err Node :=
  if g.command.asString ≠ g.endcmd.asString then
    .error (.mismatch g.command.asString g.endcmd.asString)
  else
    .ok (.block g.command.asString (g.param.map List.asString)
      (g.varName.map List.asString) g.body.asString)

/-- the inline-command-pass callback. -/
def inlineHandler (g : InlineG) : Except Err Node :=
  .ok (.cmd g.command.asString (g.input.map List.asString) (g.varName.map List.asString))

/-- the variable-write-pass callback. -/
def varWriteHandler (g : WriteG) : Except Err Node :=
  .ok (.varSet g.name.asString g.value.asString)

/-- the variable-read-pass callback. -/
def varReadHandler (g : ReadG) : Except Err Node :=
  .ok (.varRead g.name.asString)

/-- the four ordered passes of `getPrompt`: blocks, inline commands,
variable writes, variable reads. -/
def parseTemplate (template : String) : Except Err (List Elem) := do
  let e1 ← findReplaceWith matchBlockAt blockHandler [Sum.inl template]
  let e2 ← findReplaceWith matchInlineAt inlineHandler e1
  let e3 ← findReplaceWith matchVarWriteAt varWriteHandler e2
  findReplaceWith matchVarReadAt varReadHandler e3

/-! ## The command dispatcher and the evaluator -/

/-- `simpleVarReplace`: the lightweight single-pass substitution applied
to inline command arguments,
`string.replace(RE.var_read, (_, varname) => variables[varname] || '')`.
A falsy variable value (or an absent variable, which reads as
`undefined`) substitutes the empty string; a truthy one substitutes its
string coercion. -/
def simpleVarReplace (vars : Scope) (s : String) : String :=
  ((scanWith matchVarReadAt (s.data.length + 1) s.data []).map fun piece =>
    match piece with
    | Sum.inl lit => lit
    | Sum.inr g =>
        match scopeLookup vars g.name.asString with
        | some v => if vTruthy v then vToString v else ""
        | none => "").foldl (· ++ ·) ""

/-- `runCommand(command, variables, arg, param)`: the fixed handler
table.  Branches appear in source order: `writefile`, the `js` family,
`every`, `file`, `followup`, `claude`, then the pass-through default.
The actual disk write of `writefile` and the host `eval` of `js` are
external effects; `eval` results come from the environment. -/
def runCommand (env : Env) (command : String) (vars : Scope) (arg : String)
    (param : Option String) : Except Err CmdResult :=
  if command = "writefile" then
    match param with
    | none => .error (.typeError "writeFileSync called with an undefined path")
    | some _ => .ok { value := some (.vStr arg), body := some (.vStr "") }
  else if command = "js" ∨ command = "jsdisplay" ∨ command = "jsd" then
    match env.jsEval vars arg with
    | .error e => .error (.jsError e)
    | .ok result =>
        let baseVars : Scope := [("js_response", result)]
        let outVars := match param with
          | some p => scopeSet baseVars p result
          | none => baseVars
        .ok { body := some (if command = "jsdisplay" ∨ command = "jsd" then result else .vStr ""),
              value := some result, vars := some outVars }
  else if command = "every" then
    .ok { every := some [⟨arg⟩] }
  else if command = "file" then
    let name := match param with
      | some p => if p = "" then env.randName else p
      | none => env.randName
    let att : Attachment :=
      { file_name := name
        file_type := "text/plain"
        file_size := arg.utf8ByteSize
        extracted_content := arg }
    .ok { value := some (.vStr arg), body := some (.vStr ""), attachments := some [att] }
  else if command = "followup" then
    .ok { followup := some [⟨arg⟩] }
  else if command = "claude" then
    match env.oneShot arg with
    | none => .error .backendFail
    | some c =>
        .ok { body := some (.vStr c),
              vars := some [("claude_response", .vCompletion c)] }
  else
    .ok { body := some (.vStr (command ++ "(" ++ arg ++ ")")) }

/-- the `try \x7b block.value = JSON.parse(block.value) \x7d catch (e) \x7b\x7d`
mutation: a parse failure keeps the raw text, an absent value stays
absent (`JSON.parse(undefined)` throws and is caught). -/
def jsonAdjustValue : Option String → Option String
  | none => none
  | some s => some ((jsonParseString s).getD s)

/-- the bound-variable name a node declares (`block.var`). -/
def nodeVarName : Node → Option String
  | .block _ _ v _ => v
  | .cmd _ _ v => v
  | _ => none

/-- `templatePath.split(sep).slice(0, -1).join(sep)` with the POSIX
separator. -/
def pathDirname (p : String) : String :=
  String.intercalate "/" ((p.splitOn "/").dropLast)

/-- `join(dir, path)` (simplified: no `.`/`..` normalisation, which none
of the analysed inputs need). -/
def pathJoin (dir p : String) : String :=
  if dir = "" then p else dir ++ "/" ++ p

/-- Lines 680-707 of the evaluator loop: compute the dispatch `result`
for a node, together with the evaluator state as mutated by the
dispatch.  For an `import` command the recursive `getPrompt` shares (and
mutates) the scope object; for a non-deferred block the body is first
evaluated recursively against that same scope, the nested attachments
and followups are merged, and then the block's command is dispatched on
the nested resolved body.  Note that the nested `every` queue is *not*
merged in the block branch. -/
def dispatchNode (recur : String → Scope → Except Err PromptResult) (env : Env)
    (node : Node) (st : EvalSt) : Except Err (CmdResult × EvalSt) :=
  match node with
  | .varRead _ => .ok ({}, st)
  | .varSet _ _ => .ok ({}, st)
  | .cmd c value0 _ =>
      if c = "import" then do
        let tp ← (match scopeLookup st.vars "templatePath" with
          | some (.vStr p) => Except.ok p
          | some _ => Except.error (Err.typeError "templatePath.split is not a function")
          | none => Except.error
              (Err.typeError "cannot read properties of undefined, reading split") :
          Except Err String)
        let v ← (match jsonAdjustValue value0 with
          | some v => Except.ok v
          | none => Except.error (Err.typeError "argument of join must not be undefined") :
          Except Err String)
        let path := pathJoin (pathDirname tp) v
        let content ← (match env.files path with
          | some c => Except.ok c
          | none => Except.error (Err.fileNotFound path) : Except Err String)
        let ran ← recur content st.vars
        .ok ({ body := some (.vStr ran.body), attachments := some ran.attachments,
               followup := some ran.followup, every := some ran.every,
               vars := some ran.vars },
             { st with vars := ran.vars })
      else do
        let arg ← (match jsonAdjustValue value0 with
          | some s => Except.ok (simpleVarReplace st.vars s)
          | none => Except.error
              (Err.typeError "cannot read properties of undefined, reading replace") :
          Except Err String)
        let r ← runCommand env c st.vars arg none
        let r := if (nodeVarName node).isSome then { r with body := some (.vStr "") } else r
        .ok (r, st)
  | .block c param _ body =>
      if c = "followup" ∨ c = "every" then do
        let r ← runCommand env c st.vars body param
        .ok (r, st)
      else do
        let ran ← recur body st.vars
        let vars1 := ran.vars
        let vars2 := scopeAssign vars1 ran.vars
        let st1 :=
          { st with
            vars := vars2
            attachments := st.attachments ++ ran.attachments
            followup := st.followup ++ ran.followup }
        let r ← runCommand env c st1.vars ran.body param
        .ok (r, st1)

/-- One iteration of the `for (const block of out)` loop in `getPrompt`
(lines 668-729 of the source): literal handling, variable read/write,
dispatch, the `result = \x7b body: '', variables: \x7b\x7d, ...result \x7d`
defaults, the `response`/`result` scope refresh, the bound-variable
assignment, and the merging of the result's side channels. -/
def evalStep (recur : String → Scope → Except Err PromptResult) (env : Env)
    (e : Elem) (st : EvalSt) : Except Err EvalSt :=
  match e with
  | Sum.inl s =>
      if (jsTrim s).length = 0 then .ok { st with text := st.text ++ "\n" }
      else .ok { st with text := st.text ++ s }
  | Sum.inr node => do
      let st0 :=
        match node with
        | .varRead name =>
            { st with text := st.text ++ (match scopeLookup st.vars name with
                | some v => vToString v
                | none => "undefined") }
        | .varSet name v => { st with vars := scopeSet st.vars name (.vStr v) }
        | _ => st
      let (result, st1) ← dispatchNode recur env node st0
      let bodyV := result.body.getD (.vStr "")
      let rvars := result.vars.getD []
      let resp := match result.value with
        | some v => if vTruthy v then v else bodyV
        | none => bodyV
      let vars1 := scopeSet (scopeSet st1.vars "response" resp) "result" resp
      let vars2 := scopeAssign vars1 rvars
      let vars3 := match nodeVarName node with
        | some w => scopeSet vars2 w ((scopeLookup vars2 "response").getD .vUndef)
        | none => vars2
      .ok { text := st1.text ++ vToString bodyV,
            attachments := st1.attachments ++ (result.attachments.getD []),
            followup := st1.followup ++ (result.followup.getD []),
            every := st1.every ++ (result.every.getD []),
            vars := vars3 }

/-- the full evaluator loop over the parsed sequence. -/
def evalElemsGo (recur : String → Scope → Except Err PromptResult) (env : Env) :
    List Elem → EvalSt → Except Err EvalSt
  | [], st => .ok st
  | e :: es, st =>
      match evalStep recur env e st with
      | .error err => .error err
      | .ok st' => evalElemsGo recur env es st'

/-- `getPrompt(template, variables)`: parse, evaluate, and normalise the
accumulated body.  The JS function recurses without bound (through
nested blocks and `import`); the fuel argument makes that recursion
total, with `fuelExhausted` standing for a stack overflow. -/
def getPromptF (env : Env) : Nat → String → Scope → Except Err PromptResult
  | 0, _, _ => .error .fuelExhausted
  | n + 1, template, vars => do
      let elems ← parseTemplate template
      let st ← evalElemsGo (fun t v => getPromptF env n t v) env elems
        { text := "", attachments := [], followup := [], every := [], vars := vars }
      .ok { body := collapseBody st.text, attachments := st.attachments,
            followup := st.followup, every := st.every, vars := st.vars }

/-! ## The orchestrator (`runPrompt`)

`runPrompt` drives the conversation: it may call
`claude.startConversation(body, ...)` once and `convo.sendMessage(body,
...)` repeatedly.  Those two operations are the network calls of the
conversation interface (spec section 6); the model records them in a
transcript.  Completions are supplied by `env.completions`, indexed by
the number of messages exchanged so far; `none` models a backend answer
without a completion, which the `status` `done` callback turns into a
fatal `No response` exit. -/

/-- a network call of the conversation interface. -/
inductive Event where
  | start (body : String) (attachments : List Attachment)
  | send (body : String) (attachments : List Attachment)
deriving DecidableEq, Repr

/-- Orchestrator state: the shared `prompt.variables` object, the live
`prompt.every` array, whether `convo` has been assigned (it stays
`undefined` when no initial message was sent), the number of exchanges
so far, and the transcript. -/
structure Orch where
  vars : Scope
  every : List QItem
  convo : Bool
  sendIdx : Nat
  events : List Event
deriving DecidableEq, Repr

/-- a JavaScript array is an object and hence always truthy, even when
empty.  (This is what makes the early return in `runPrompt` dead code.) -/
def jsArrTruthy (_l : List α) : Bool := true

/-- `runEveries()`: re-parse and re-evaluate each queued `every` item
against the current `prompt.variables` (which the evaluation also
mutates), skip it if its resolved body is empty or whitespace, and
otherwise send it on the conversation.  Sending when `convo` was never
assigned is a TypeError.  Only `claude_response` is refreshed after an
`every` exchange, not `response`.  The nested queues of the item's own
evaluation are discarded. -/
def runEveries (env : Env) (n : Nat) : List QItem → Orch → Except Err Orch
  | [], st => .ok st
  | j :: rest, st => do
      let thing ← getPromptF env n j.body st.vars
      let st1 := { st with vars := thing.vars }
      if (jsTrim thing.body).length = 0 then runEveries env n rest st1
      else if !st1.convo then
        Except.error (Err.typeError "cannot read sendMessage of undefined")
      else
        match env.completions st1.sendIdx with
        | none => Except.error Err.backendFail
        | some c =>
            runEveries env n rest
              { st1 with
                events := st1.events ++ [.send thing.body thing.attachments]
                sendIdx := st1.sendIdx + 1
                vars := scopeSet st1.vars "claude_response" (.vCompletion c) }

/-- `for (let i of prompt.followup)`: process the live followup array in
order.  Each item is re-parsed and re-evaluated against the current
scope; the nested followup and every queues are appended to the live
arrays *before* the empty-body check; a non-empty resolved body is sent
and awaited, `claude_response` is refreshed, and the whole (possibly
grown) every queue is drained before the next followup.  The JS loop can
run forever when followups keep queueing followups, hence the fuel. -/
def followupGo (env : Env) (n : Nat) : Nat → List QItem → Orch → Except Err Orch
  | _, [], st => .ok st
  | 0, _ :: _, _ => .error .fuelExhausted
  | fl + 1, i :: rest, st => do
      let f ← getPromptF env n i.body st.vars
      let st1 := { st with vars := f.vars, every := st.every ++ f.every }
      let pending := rest ++ f.followup
      if (jsTrim f.body).length = 0 then followupGo env n fl pending st1
      else if !st1.convo then
        Except.error (Err.typeError "cannot read sendMessage of undefined")
      else
        match env.completions st1.sendIdx with
        | none => Except.error Err.backendFail
        | some c => do
            let st2 :=
              { st1 with
                events := st1.events ++ [.send f.body f.attachments]
                sendIdx := st1.sendIdx + 1
                vars := scopeSet st1.vars "claude_response" (.vCompletion c) }
            let st3 ← runEveries env n st2.every st2
            followupGo env n fl pending st3

/-- `runPrompt(prompt)` (lines 798-865).  The early return tests
`!(prompt.body?.trim()?.length || prompt.every || prompt.followup)`;
since `prompt.every` and `prompt.followup` are arrays they are always
truthy, so the early return never fires.  `claude.init()` is session
initialisation outside the conversation interface and is not an event.
When the trimmed body is non-empty a conversation is started and the
first completion is awaited; otherwise `convo` remains unassigned.  Then
the every queue is drained, then the followup loop runs. -/
def runPromptF (env : Env) (n fl : Nat) (p : PromptResult) (dontRespond : Bool) :
    Except Err Orch :=
  let st0 : Orch := { vars := p.vars, every := p.every, convo := false,
                      sendIdx := 0, events := [] }
  if !((jsTrim p.body).length ≠ 0 || jsArrTruthy p.every || jsArrTruthy p.followup) then
    .ok st0
  else do
    let st1 ←
      if dontRespond then
        Except.ok { st0 with
          vars := scopeSet (scopeSet st0.vars "response" (.vStr p.body))
            "claude_response" (.vCompletion p.body) }
      else if (jsTrim p.body).length ≠ 0 then
        match env.completions 0 with
        | none => Except.error Err.backendFail
        | some c =>
            Except.ok { st0 with
              convo := true
              sendIdx := 1
              events := [.start p.body p.attachments]
              vars := scopeSet (scopeSet st0.vars "claude_response" (.vCompletion c))
                "response" (.vStr c) }
      else Except.ok st0
    let st2 ← runEveries env n st1.every st1
    followupGo env n fl p.followup st2

/-- the template pipeline of `template(message, params)`: `getPrompt`
runs to completion before `runPrompt` is invoked, so an evaluation
error aborts the run before any conversation event can occur. -/
def templateRun (env : Env) (n fl : Nat) (template : String) (vars : Scope) :
    Except Err Orch := do
  let prompt ← getPromptF env n template vars
  runPromptF env n fl prompt false

/-! ## Concrete environments for witness runs -/

/-- an environment in which every external capability fails or is
absent; sufficient for templates that use none of them. -/
def env0 : Env where
  files := fun _ => none
  jsEval := fun _ _ => .error "eval failed"
  oneShot := fun _ => none
  completions := fun _ => none
  randName := "file-aaaaaa.txt"

/-- an environment whose backend answers every exchange `k` with the
completion `RESP<k>`. -/
def envC : Env where
  files := fun _ => none
  jsEval := fun _ _ => .error "eval failed"
  oneShot := fun _ => none
  completions := fun k => some ("RESP" ++ toString k)
  randName := "file-aaaaaa.txt"

/-- an environment whose host `eval` knows the expression `1+1` (the
spec's own `js`/`jsdisplay` example). -/
def envJS : Env where
  files := fun _ => none
  jsEval := fun _ s => if s = "1+1" then .ok (.vNum 2) else .error "eval failed"
  oneShot := fun _ => none
  completions := fun _ => none
  randName := "file-aaaaaa.txt"

/-- does a result carry the structural mismatch error thrown by the
block-pass callback? -/
def exceptNoMismatch : Except Err α → Bool
  | .error (.mismatch _ _) => false
  | _ => true

/-! ## Helper lemmas -/

theorem firstSome_eq_some {l : List α} {f : α → Option β} {b : β}
    (h : firstSome l f = some b) : ∃ a ∈ l, f a = some b := by
  induction l with
  | nil => simp [firstSome] at h
  | cons x xs ih =>
      simp only [firstSome] at h
      cases hx : f x with
      | some b' => rw [hx] at h; exact ⟨x, by simp, by simpa [hx] using h⟩
      | none =>
          rw [hx] at h
          obtain ⟨a, ha, hfa⟩ := ih h
          exact ⟨a, by simp [ha], hfa⟩

/-- The backreference fact: whatever `\x7b\/(?<endcmd>\1)\x7d` captures
is character for character the `command` capture. -/
theorem matchCloseTag_endcmd {cmd : List Char} {vn p : Option (List Char)}
    {b s : List Char} {g : BlockG} {rest : List Char}
    (h : matchCloseTag cmd vn p b s = some (g, rest)) :
    g.command = cmd ∧ g.endcmd = cmd := by
  unfold matchCloseTag at h
  by_cases ht : s.take (cmd.length + 3) = '{' :: '/' :: (cmd ++ ['}'])
  · rw [if_pos ht] at h
    have hs : s = ('{' :: '/' :: (cmd ++ ['}'])) ++ s.drop (cmd.length + 3) := by
      conv_lhs => rw [← List.take_append_drop (cmd.length + 3) s]
      rw [ht]
    have h2 : s.drop 2 = cmd ++ '}' :: s.drop (cmd.length + 3) := by
      conv_lhs => rw [hs]
      simp
    have h3 : (s.drop 2).take cmd.length = cmd := by
      rw [h2]
      exact List.take_left cmd ('}' :: s.drop (cmd.length + 3))
    cases h
    exact ⟨rfl, h3⟩
  · rw [if_neg ht] at h
    exact absurd h (by simp)

theorem blockBodySearch_endcmd {cmd : List Char} {vn p : Option (List Char)}
    {s : List Char} {g : BlockG} {rest : List Char}
    (h : blockBodySearch cmd vn p s = some (g, rest)) :
    g.command = cmd ∧ g.endcmd = cmd := by
  unfold blockBodySearch at h
  obtain ⟨w, _, hw⟩ := firstSome_eq_some h
  obtain ⟨j, _, hj⟩ := firstSome_eq_some hw
  by_cases hb : ((s.drop w).take (j + 1)).length = j + 1
  · rw [if_pos hb] at hj
    exact matchCloseTag_endcmd hj
  · rw [if_neg hb] at hj
    exact absurd hj (by simp)

theorem blockParamSearch_endcmd {cmd : List Char} {vn : Option (List Char)}
    {s : List Char} {g : BlockG} {rest : List Char}
    (h : blockParamSearch cmd vn s = some (g, rest)) :
    g.command = cmd ∧ g.endcmd = cmd := by
  unfold blockParamSearch at h
  obtain ⟨i, _, hi⟩ := firstSome_eq_some h
  by_cases hc : ((s.take (i + 1)).length = (i + 1) && (s.take (i + 1)).all isDotChar
      && (s.drop (i + 1)).take 1 = ['}']) = true
  · rw [if_pos hc] at hi
    exact blockBodySearch_endcmd hi
  · rw [if_neg hc] at hi
    exact absurd hi (by simp)

theorem orTry_eq_some {a b : Option α} {x : α} (h : orTry a b = some x) :
    a = some x ∨ b = some x := by
  cases a with
  | some r => left; simpa [orTry] using h
  | none => right; simpa [orTry] using h

theorem blockVarBranch_endcmd {cmd w : List Char} {s : List Char} {g : BlockG}
    {rest : List Char} (h : blockVarBranch cmd w s = some (g, rest)) :
    g.command = cmd ∧ g.endcmd = cmd := by
  rcases s with _ | ⟨c, s4⟩
  · simp [blockVarBranch] at h
  · simp only [blockVarBranch] at h
    by_cases hc : c = '='
    · rw [if_pos hc] at h
      exact blockParamSearch_endcmd h
    · rw [if_neg hc] at h
      exact absurd h (by simp)

theorem blockTryParam_endcmd {cmd : List Char} {s2 : List Char} {g : BlockG}
    {rest : List Char} (h : blockTryParam cmd s2 = some (g, rest)) :
    g.command = cmd ∧ g.endcmd = cmd := by
  rcases s2 with _ | ⟨c, s3⟩
  · simp [blockTryParam] at h
  simp only [blockTryParam] at h
  by_cases hc : c = ' '
  · rw [if_pos hc] at h
    rcases orTry_eq_some h with hv | hv
    · by_cases hw : (s3.takeWhile isWordChar).isEmpty
      · rw [if_pos hw] at hv; exact absurd hv (by simp)
      · rw [if_neg hw] at hv
        exact blockVarBranch_endcmd hv
    · exact blockParamSearch_endcmd hv
  · rw [if_neg hc] at h
    exact absurd h (by simp)

theorem blockNoParamBranch_endcmd {cmd : List Char} {s2 : List Char} {g : BlockG}
    {rest : List Char} (h : blockNoParamBranch cmd s2 = some (g, rest)) :
    g.command = cmd ∧ g.endcmd = cmd := by
  rcases s2 with _ | ⟨c, s3⟩
  · simp [blockNoParamBranch] at h
  · simp only [blockNoParamBranch] at h
    by_cases hc : c = '}'
    · rw [if_pos hc] at h
      exact blockBodySearch_endcmd h
    · rw [if_neg hc] at h
      exact absurd h (by simp)

theorem blockAfterCmd_endcmd {cmd : List Char} {s2 : List Char} {g : BlockG}
    {rest : List Char} (h : blockAfterCmd cmd s2 = some (g, rest)) :
    g.command = cmd ∧ g.endcmd = cmd := by
  unfold blockAfterCmd at h
  rcases orTry_eq_some h with hv | hv
  · exact blockTryParam_endcmd hv
  · exact blockNoParamBranch_endcmd hv

/-- Every successful block match has identical `command` and `endcmd`
captures: the closing tag is a backreference to the opening name, so a
differing close tag simply prevents the match. -/
theorem matchBlockAt_endcmd {s : List Char} {g : BlockG} {rest : List Char}
    (h : matchBlockAt s = some (g, rest)) :
    g.command = g.endcmd := by
  rcases s with _ | ⟨c1, _ | ⟨c2, s1⟩⟩
  · simp [matchBlockAt] at h
  · simp [matchBlockAt] at h
  · simp only [matchBlockAt] at h
    by_cases hb : (c1 = '{' && c2 = '#') = true
    · rw [if_pos hb] at h
      by_cases hemp : (s1.takeWhile isLowerAZ).isEmpty
      · rw [if_pos hemp] at h; exact absurd h (by simp)
      · rw [if_neg hemp] at h
        obtain ⟨h1, h2⟩ := blockAfterCmd_endcmd h
        rw [h1, h2]
    · rw [if_neg hb] at h
      exact absurd h (by simp)

theorem exBind_ok {x : α} {f : α → Except Err β} :
    (Except.ok x >>= f : Except Err β) = f x := rfl

theorem exMap_ok {x : α} {f : α → β} :
    (Except.map f (Except.ok x) : Except Err β) = Except.ok (f x) := rfl

/-- every node the scanner emits comes from a successful match. -/
theorem scanWith_inr {matchAt : List Char → Option (γ × List Char)} :
    ∀ (n : Nat) (s acc : List Char) (g : γ),
    Sum.inr g ∈ scanWith matchAt n s acc →
    ∃ s' rest, matchAt s' = some (g, rest) := by
  intro n
  induction n with
  | zero => intro s acc g h; simp [scanWith] at h
  | succ m ih =>
      intro s acc g h
      rcases s with _ | ⟨c, cs⟩
      · simp [scanWith] at h
      · simp only [scanWith] at h
        cases hm : matchAt (c :: cs) with
        | some pr =>
            obtain ⟨g', rest⟩ := pr
            rw [hm] at h
            rcases List.mem_cons.mp h with h1 | h2
            · exact absurd h1 (by simp)
            · rcases List.mem_cons.mp h2 with h1 | h3
              · obtain rfl : g = g' := by injection h1
                exact ⟨c :: cs, rest, hm⟩
              · exact ih rest [] g h3
        | none =>
            rw [hm] at h
            exact ih cs (c :: acc) g h

theorem handlePieces_ok (handler : γ → Except Err Node)
    (pieces : List (Sum String γ))
    (h : ∀ g, Sum.inr g ∈ pieces → ∃ nd, handler g = .ok nd) :
    ∃ out, handlePieces handler pieces = .ok out := by
  induction pieces with
  | nil => exact ⟨[], rfl⟩
  | cons p rest ih =>
      obtain ⟨out, hout⟩ := ih (fun g hg => h g (by simp [hg]))
      cases p with
      | inl lit =>
          exact ⟨Sum.inl lit :: out, by simp only [handlePieces, hout, exMap_ok]⟩
      | inr g =>
          obtain ⟨nd, hnd⟩ := h g (by simp)
          refine ⟨Sum.inr nd :: out, ?_⟩
          simp only [handlePieces, hnd, hout, exBind_ok]

theorem findReplaceWith_ok (matchAt : List Char → Option (γ × List Char))
    (handler : γ → Except Err Node)
    (hh : ∀ (s' : List Char) (g : γ) (rest : List Char),
      matchAt s' = some (g, rest) → ∃ nd, handler g = .ok nd) :
    ∀ elems, ∃ out, findReplaceWith matchAt handler elems = .ok out := by
  intro elems
  induction elems with
  | nil => exact ⟨[], rfl⟩
  | cons e rest ih =>
      obtain ⟨out, hout⟩ := ih
      cases e with
      | inr node =>
          exact ⟨Sum.inr node :: out, by simp only [findReplaceWith, hout, exMap_ok]⟩
      | inl s =>
          by_cases hs : s.length = 0
          · refine ⟨Sum.inl s :: out, ?_⟩
            simp only [findReplaceWith, hout, exBind_ok]
            rw [if_pos hs]
            rfl
          · obtain ⟨pieces, hpieces⟩ :=
              handlePieces_ok handler
                (scanWith matchAt (s.data.length + 1) s.data [])
                (fun g hg => by
                  obtain ⟨s', r', hm⟩ := scanWith_inr _ _ _ _ hg
                  exact hh s' g r' hm)
            refine ⟨pieces ++ out, ?_⟩
            simp only [findReplaceWith, hout, exBind_ok]
            rw [if_neg hs]
            simp only [hpieces, exBind_ok]
            rfl

/-- the block-pass callback never throws: any match it is handed has
equal `command` and `endcmd` captures. -/
theorem blockHandler_ok {s' : List Char} {g : BlockG} {rest : List Char}
    (hm : matchBlockAt s' = some (g, rest)) : ∃ nd, blockHandler g = .ok nd := by
  have h := matchBlockAt_endcmd hm
  refine ⟨Node.block g.command.asString (g.param.map List.asString)
    (g.varName.map List.asString) g.body.asString, ?_⟩
  unfold blockHandler
  rw [if_neg (by simp [h])]

/-- Parsing always succeeds: the only error the four passes can raise is
the mismatched-close-tag error, and the backreference in the block
pattern makes it unreachable. -/
theorem parseTemplate_ok (template : String) :
    ∃ out, parseTemplate template = .ok out := by
  obtain ⟨e1, h1⟩ := findReplaceWith_ok matchBlockAt blockHandler
    (fun _ _ _ hm => blockHandler_ok hm) [Sum.inl template]
  obtain ⟨e2, h2⟩ := findReplaceWith_ok matchInlineAt inlineHandler
    (fun _ g _ _ => ⟨_, rfl⟩) e1
  obtain ⟨e3, h3⟩ := findReplaceWith_ok matchVarWriteAt varWriteHandler
    (fun _ g _ _ => ⟨_, rfl⟩) e2
  obtain ⟨e4, h4⟩ := findReplaceWith_ok matchVarReadAt varReadHandler
    (fun _ g _ _ => ⟨_, rfl⟩) e3
  refine ⟨e4, ?_⟩
  unfold parseTemplate
  simp only [h1, h2, h3, h4, exBind_ok]

theorem noMismatch_bind {a : Except Err α} {f : α → Except Err β}
    (ha : exceptNoMismatch a = true)
    (hf : ∀ x, exceptNoMismatch (f x) = true) :
    exceptNoMismatch (a >>= f) = true := by
  cases a with
  | error e =>
      have hrw : (Except.error e >>= f : Except Err β) = Except.error e := rfl
      rw [hrw]
      cases e <;> first | rfl | exact ha
  | ok x =>
      have hrw : (Except.ok x >>= f : Except Err β) = f x := rfl
      rw [hrw]
      exact hf x

/-- `runCommand` can fail with a TypeError, a js evaluation error or a
backend failure, but never with the structural mismatch error. -/
theorem runCommand_noMismatch (env : Env) (c : String) (vars : Scope)
    (arg : String) (param : Option String) :
    exceptNoMismatch (runCommand env c vars arg param) = true := by
  unfold runCommand
  split_ifs <;>
    first
      | rfl
      | (cases param <;> rfl)
      | (cases env.jsEval vars arg <;> rfl)
      | (cases env.oneShot arg <;> rfl)

theorem dispatchNode_noMismatch (recur : String → Scope → Except Err PromptResult)
    (env : Env) (hrec : ∀ t v, exceptNoMismatch (recur t v) = true) :
    ∀ (node : Node) (st : EvalSt),
    exceptNoMismatch (dispatchNode recur env node st) = true := by
  intro node st
  cases node with
  | varRead name => rfl
  | varSet name v => rfl
  | cmd c value0 varN =>
      simp only [dispatchNode]
      by_cases hc : c = "import"
      · rw [if_pos hc]
        apply noMismatch_bind
        · cases h : scopeLookup st.vars "templatePath" with
          | none => rfl
          | some v => cases v <;> rfl
        · intro tp
          apply noMismatch_bind
          · cases jsonAdjustValue value0 <;> rfl
          · intro v
            apply noMismatch_bind
            · cases env.files (pathJoin (pathDirname tp) v) <;> rfl
            · intro content
              apply noMismatch_bind
              · exact hrec content st.vars
              · intro ran; rfl
      · rw [if_neg hc]
        apply noMismatch_bind
        · cases jsonAdjustValue value0 <;> rfl
        · intro arg
          apply noMismatch_bind
          · exact runCommand_noMismatch env c st.vars arg none
          · intro r; rfl
  | block c param varN body =>
      simp only [dispatchNode]
      by_cases hd : c = "followup" ∨ c = "every"
      · rw [if_pos hd]
        apply noMismatch_bind
        · exact runCommand_noMismatch env c st.vars body param
        · intro r; rfl
      · rw [if_neg hd]
        apply noMismatch_bind
        · exact hrec body st.vars
        · intro ran
          apply noMismatch_bind
          · exact runCommand_noMismatch env c _ ran.body param
          · intro r; rfl

theorem evalStep_noMismatch (recur : String → Scope → Except Err PromptResult)
    (env : Env) (hrec : ∀ t v, exceptNoMismatch (recur t v) = true) :
    ∀ (e : Elem) (st : EvalSt),
    exceptNoMismatch (evalStep recur env e st) = true := by
  intro e st
  cases e with
  | inl s =>
      simp only [evalStep]
      split_ifs <;> rfl
  | inr node =>
      simp only [evalStep]
      apply noMismatch_bind
      · exact dispatchNode_noMismatch recur env hrec node _
      · intro pr
        obtain ⟨result, st1⟩ := pr
        rfl

theorem evalElemsGo_noMismatch (recur : String → Scope → Except Err PromptResult)
    (env : Env) (hrec : ∀ t v, exceptNoMismatch (recur t v) = true) :
    ∀ (elems : List Elem) (st : EvalSt),
    exceptNoMismatch (evalElemsGo recur env elems st) = true := by
  intro elems
  induction elems with
  | nil => intro st; rfl
  | cons e es ih =>
      intro st
      simp only [evalElemsGo]
      cases hstep : evalStep recur env e st with
      | error err =>
          have h := evalStep_noMismatch recur env hrec e st
          rw [hstep] at h
          exact h
      | ok st' => exact ih st'

/-- No evaluation, at any recursion depth, ever fails with the
structural mismatch error: it is dead code. -/
theorem getPromptF_noMismatch (env : Env) :
    ∀ (n : Nat) (t : String) (vars : Scope),
    exceptNoMismatch (getPromptF env n t vars) = true := by
  intro n
  induction n with
  | zero => intro t vars; rfl
  | succ m ih =>
      intro t vars
      unfold getPromptF
      apply noMismatch_bind
      · obtain ⟨out, hout⟩ := parseTemplate_ok t
        rw [hout]
        rfl
      · intro elems
        apply noMismatch_bind
        · exact evalElemsGo_noMismatch _ env (fun t' v' => ih t' v') elems _
        · intro st; rfl

theorem strAppend_empty (s : String) : s ++ "" = s := by
  cases s with
  | mk l => show String.mk (l ++ []) = String.mk l; rw [List.append_nil]

theorem scopeLookup_set_self (s : Scope) (k : String) (v : Value) :
    scopeLookup (scopeSet s k v) k = some v := by
  induction s with
  | nil => simp [scopeSet, scopeLookup]
  | cons kv rest ih =>
      obtain ⟨k', v'⟩ := kv
      by_cases hk : k' = k
      · simp [scopeSet, scopeLookup, hk]
      · simp [scopeSet, scopeLookup, hk, ih]

theorem scopeLookup_set_ne (s : Scope) {k k' : String} (v : Value)
    (h : k' ≠ k) : scopeLookup (scopeSet s k' v) k = scopeLookup s k := by
  induction s with
  | nil => simp [scopeSet, scopeLookup, h]
  | cons kv rest ih =>
      obtain ⟨k0, v0⟩ := kv
      by_cases hk : k0 = k'
      · subst hk
        simp [scopeSet, scopeLookup, h]
      · simp [scopeSet, scopeLookup, hk, ih]

theorem scopeSet_lookup_isSome (s : Scope) (k a : String) (b : Value)
    (h : (scopeLookup s k).isSome) :
    (scopeLookup (scopeSet s a b) k).isSome := by
  by_cases hk : a = k
  · subst hk; simp [scopeLookup_set_self]
  · rwa [scopeLookup_set_ne s b hk]

theorem scopeAssign_lookup_isSome (src : Scope) :
    ∀ (d : Scope) (k : String), (scopeLookup d k).isSome →
    (scopeLookup (scopeAssign d src) k).isSome := by
  induction src with
  | nil => intro d k h; exact h
  | cons kv rest ih =>
      intro d k h
      obtain ⟨a, b⟩ := kv
      show (scopeLookup (scopeAssign (scopeSet d a b) rest) k).isSome
      exact ih (scopeSet d a b) k (scopeSet_lookup_isSome d k a b h)

/-- the `response`/`result` refresh value for the empty dispatch result
of a variable node. -/
theorem evalStep_varRead (recur : String → Scope → Except Err PromptResult)
    (env : Env) (name : String) (st : EvalSt) :
    evalStep recur env (Sum.inr (Node.varRead name)) st =
      .ok { st with
        text := st.text ++ (match scopeLookup st.vars name with
          | some v => vToString v
          | none => "undefined"),
        vars := scopeSet (scopeSet st.vars "response" (.vStr ""))
          "result" (.vStr "") } := by
  simp only [evalStep, dispatchNode, exBind_ok, nodeVarName, Option.getD,
    vToString, strAppend_empty, List.append_nil, scopeAssign, List.foldl]

theorem evalStep_varSet (recur : String → Scope → Except Err PromptResult)
    (env : Env) (name v : String) (st : EvalSt) :
    evalStep recur env (Sum.inr (Node.varSet name v)) st =
      .ok { st with
        vars := scopeSet (scopeSet (scopeSet st.vars name (.vStr v))
          "response" (.vStr "")) "result" (.vStr "") } := by
  simp only [evalStep, dispatchNode, exBind_ok, nodeVarName, Option.getD,
    vToString, strAppend_empty, List.append_nil, scopeAssign, List.foldl]

theorem runCommand_followup (env : Env) (vars : Scope) (arg : String)
    (param : Option String) :
    runCommand env "followup" vars arg param = .ok { followup := some [⟨arg⟩] } := rfl

theorem runCommand_every (env : Env) (vars : Scope) (arg : String)
    (param : Option String) :
    runCommand env "every" vars arg param = .ok { every := some [⟨arg⟩] } := rfl

/-- a `followup` block queues its raw body (the statement holds for
every `recur`, so no recursive evaluation can be involved), echoes no
text, and refreshes `response`/`result` with the empty string. -/
theorem evalStep_blockFollowup (recur : String → Scope → Except Err PromptResult)
    (env : Env) (param : Option String) (b : String) (st : EvalSt) :
    evalStep recur env (Sum.inr (Node.block "followup" param none b)) st =
      .ok { st with
            followup := st.followup ++ [⟨b⟩]
            vars := scopeSet (scopeSet st.vars "response" (.vStr ""))
              "result" (.vStr "") } := by
  simp only [evalStep, dispatchNode]
  rw [if_pos (Or.inl trivial : True ∨ ("followup" : String) = "every")]
  rw [runCommand_followup]
  simp only [exBind_ok, nodeVarName, Option.getD, vToString, strAppend_empty,
    List.append_nil, scopeAssign, List.foldl]

/-- an `every` block queues its raw body on the every queue, for every
`recur`. -/
theorem evalStep_blockEvery (recur : String → Scope → Except Err PromptResult)
    (env : Env) (param : Option String) (b : String) (st : EvalSt) :
    evalStep recur env (Sum.inr (Node.block "every" param none b)) st =
      .ok { st with
            every := st.every ++ [⟨b⟩]
            vars := scopeSet (scopeSet st.vars "response" (.vStr ""))
              "result" (.vStr "") } := by
  simp only [evalStep, dispatchNode]
  rw [if_pos (Or.inr trivial : ("every" : String) = "followup" ∨ True)]
  rw [runCommand_every]
  simp only [exBind_ok, nodeVarName, Option.getD, vToString, strAppend_empty,
    List.append_nil, scopeAssign, List.foldl]

/-- an inline `\x7b#followup "..."/\x7d` queues its argument after
`JSON.parse` and the lightweight variable substitution, i.e. with
definition-time values already substituted in. -/
theorem evalStep_inlineFollowup (recur : String → Scope → Except Err PromptResult)
    (env : Env) (s : String) (st : EvalSt) :
    evalStep recur env (Sum.inr (Node.cmd "followup" (some s) none)) st =
      .ok { st with
            followup := st.followup ++
              [⟨simpleVarReplace st.vars ((jsonParseString s).getD s)⟩],
            vars := scopeSet (scopeSet st.vars "response" (.vStr ""))
              "result" (.vStr "") } := by
  simp only [evalStep, dispatchNode]
  rw [if_neg (by decide : ¬ ("followup" : String) = "import")]
  simp only [jsonAdjustValue, exBind_ok]
  rw [runCommand_followup]
  simp only [exBind_ok, nodeVarName, Option.isSome, Bool.false_eq_true, if_false,
    Option.getD, vToString, strAppend_empty, List.append_nil, scopeAssign, List.foldl]

/-- an inline `\x7b#every "..."/\x7d` queues its substituted argument on
the every queue. -/
theorem evalStep_inlineEvery (recur : String → Scope → Except Err PromptResult)
    (env : Env) (s : String) (st : EvalSt) :
    evalStep recur env (Sum.inr (Node.cmd "every" (some s) none)) st =
      .ok { st with
            every := st.every ++
              [⟨simpleVarReplace st.vars ((jsonParseString s).getD s)⟩],
            vars := scopeSet (scopeSet st.vars "response" (.vStr ""))
              "result" (.vStr "") } := by
  simp only [evalStep, dispatchNode]
  rw [if_neg (by decide : ¬ ("every" : String) = "import")]
  simp only [jsonAdjustValue, exBind_ok]
  rw [runCommand_every]
  simp only [exBind_ok, nodeVarName, Option.isSome, Bool.false_eq_true, if_false,
    Option.getD, vToString, strAppend_empty, List.append_nil, scopeAssign, List.foldl]

theorem exBind_error {e : Err} {f : α → Except Err β} :
    (Except.error e >>= f : Except Err β) = Except.error e := rfl

theorem bind_ok_inv {a : Except Err α} {f : α → Except Err β} {b : β}
    (h : (a >>= f) = .ok b) : ∃ x, a = .ok x ∧ f x = .ok b := by
  cases a with
  | error e => rw [exBind_error] at h; exact absurd h (by simp)
  | ok x => exact ⟨x, rfl, by rw [← exBind_ok (f := f)]; exact h⟩

/-- a dispatched inline command that declares a bound variable
contributes no text to the accumulated body: the dispatch replaces
`result.body` with the empty string before the generic merge. -/
theorem evalStep_inline_suppresses
    (recur : String → Scope → Except Err PromptResult) (env : Env)
    (c s w : String) (st st' : EvalSt) (hc : c ≠ "import")
    (h : evalStep recur env (Sum.inr (Node.cmd c (some s) (some w))) st = .ok st') :
    st'.text = st.text := by
  simp only [evalStep, dispatchNode] at h
  rw [if_neg hc] at h
  simp only [jsonAdjustValue, exBind_ok] at h
  cases hr : runCommand env c st.vars
      (simpleVarReplace st.vars ((jsonParseString s).getD s)) none with
  | error e =>
      rw [hr] at h
      simp only [exBind_error] at h
      exact absurd h (by simp)
  | ok r =>
      rw [hr] at h
      simp only [exBind_ok, nodeVarName, Option.isSome_some, if_true,
        eq_self_iff_true] at h
      cases h
      simp [Option.getD, vToString, strAppend_empty]

/-- every dispatched node that declares a bound variable writes the
freshly refreshed `response` value into `scope[boundVar]`: after the
step, `boundVar` and `response` hold the same value. -/
theorem evalStep_bound_response
    (recur : String → Scope → Except Err PromptResult) (env : Env)
    (node : Node) (st st' : EvalSt) (w : String)
    (hw : nodeVarName node = some w)
    (h : evalStep recur env (Sum.inr node) st = .ok st') :
    ∃ v, scopeLookup st'.vars "response" = some v ∧
      scopeLookup st'.vars w = some v := by
  simp only [evalStep] at h
  obtain ⟨pr, hd, hk⟩ := bind_ok_inv h
  obtain ⟨result, st1⟩ := pr
  simp only [hw] at hk
  cases hk
  set resp := (match result.value with
    | some v => if vTruthy v then v else result.body.getD (.vStr "")
    | none => result.body.getD (.vStr "")) with hresp
  set vars1 := scopeSet (scopeSet st1.vars "response" resp) "result" resp with hvars1
  set vars2 := scopeAssign vars1 (result.vars.getD []) with hvars2
  have h1 : scopeLookup vars1 "response" = some resp := by
    rw [hvars1]
    rw [scopeLookup_set_ne _ _ (by decide : ("result" : String) ≠ "response")]
    exact scopeLookup_set_self _ _ _
  have h2 : (scopeLookup vars2 "response").isSome := by
    rw [hvars2]
    exact scopeAssign_lookup_isSome _ _ _ (by rw [h1]; rfl)
  obtain ⟨v, hv⟩ := Option.isSome_iff_exists.mp h2
  refine ⟨v, ?_, ?_⟩
  · by_cases hwr : w = "response"
    · subst hwr
      rw [scopeLookup_set_self, hv]
      simp [Option.getD]
    · rw [scopeLookup_set_ne _ _ (Ne.symm (by exact fun hh => hwr hh.symm)), hv]
  · rw [scopeLookup_set_self, hv]
    simp [Option.getD]

/-- the dispatch of a node only ever appends to the followup queue. -/
theorem dispatchNode_followup_ext
    (recur : String → Scope → Except Err PromptResult) (env : Env)
    (node : Node) (st : EvalSt) (r : CmdResult) (st1 : EvalSt)
    (h : dispatchNode recur env node st = .ok (r, st1)) :
    ∃ t, st1.followup = st.followup ++ t := by
  cases node with
  | varRead n =>
      simp only [dispatchNode] at h
      cases h
      exact ⟨[], by simp⟩
  | varSet n v =>
      simp only [dispatchNode] at h
      cases h
      exact ⟨[], by simp⟩
  | cmd c v vn =>
      simp only [dispatchNode] at h
      by_cases hc : c = "import"
      · rw [if_pos hc] at h
        obtain ⟨tp, _, h⟩ := bind_ok_inv h
        obtain ⟨v', _, h⟩ := bind_ok_inv h
        obtain ⟨content, _, h⟩ := bind_ok_inv h
        obtain ⟨ran, _, h⟩ := bind_ok_inv h
        cases h
        exact ⟨[], by simp⟩
      · rw [if_neg hc] at h
        obtain ⟨arg, _, h⟩ := bind_ok_inv h
        obtain ⟨r0, _, h⟩ := bind_ok_inv h
        cases h
        exact ⟨[], by simp⟩
  | block c param vn body =>
      simp only [dispatchNode] at h
      by_cases hd : c = "followup" ∨ c = "every"
      · rw [if_pos hd] at h
        obtain ⟨r0, _, h⟩ := bind_ok_inv h
        cases h
        exact ⟨[], by simp⟩
      · rw [if_neg hd] at h
        obtain ⟨ran, _, h⟩ := bind_ok_inv h
        obtain ⟨r0, _, h⟩ := bind_ok_inv h
        cases h
        exact ⟨ran.followup, rfl⟩

/-- one evaluator step only ever appends to the followup queue, in
order. -/
theorem evalStep_followup_ext
    (recur : String → Scope → Except Err PromptResult) (env : Env)
    (e : Elem) (st st' : EvalSt)
    (h : evalStep recur env e st = .ok st') :
    ∃ t, st'.followup = st.followup ++ t := by
  cases e with
  | inl s =>
      simp only [evalStep] at h
      by_cases hT : (jsTrim s).length = 0
      · rw [if_pos hT] at h; cases h; exact ⟨[], by simp⟩
      · rw [if_neg hT] at h; cases h; exact ⟨[], by simp⟩
  | inr node =>
      simp only [evalStep] at h
      obtain ⟨pr, hd, hk⟩ := bind_ok_inv h
      obtain ⟨result, st1⟩ := pr
      obtain ⟨t0, ht0⟩ : ∃ t0, st1.followup = st.followup ++ t0 := by
        cases node with
        | varRead n =>
            obtain ⟨t0, ht⟩ := dispatchNode_followup_ext recur env _ _ _ _ hd
            exact ⟨t0, ht⟩
        | varSet n v =>
            obtain ⟨t0, ht⟩ := dispatchNode_followup_ext recur env _ _ _ _ hd
            exact ⟨t0, ht⟩
        | cmd c v vn =>
            obtain ⟨t0, ht⟩ := dispatchNode_followup_ext recur env _ _ _ _ hd
            exact ⟨t0, ht⟩
        | block c param vn body =>
            obtain ⟨t0, ht⟩ := dispatchNode_followup_ext recur env _ _ _ _ hd
            exact ⟨t0, ht⟩
      revert hk
      cases hv : nodeVarName node <;> intro hk <;> simp only [hv] at hk <;>
        cases hk <;>
        exact ⟨t0 ++ result.followup.getD [], by
          show st1.followup ++ result.followup.getD [] = _
          rw [ht0, List.append_assoc]⟩

/-- the evaluator appends followup items in processing order: the queue
after evaluating a sequence extends the starting queue. -/
theorem evalElemsGo_followup_ext
    (recur : String → Scope → Except Err PromptResult) (env : Env) :
    ∀ (elems : List Elem) (st st' : EvalSt),
    evalElemsGo recur env elems st = .ok st' →
    ∃ t, st'.followup = st.followup ++ t := by
  intro elems
  induction elems with
  | nil =>
      intro st st' h
      cases h
      exact ⟨[], by simp⟩
  | cons e es ih =>
      intro st st' h
      simp only [evalElemsGo] at h
      cases hstep : evalStep recur env e st with
      | error err => rw [hstep] at h; exact absurd h (by simp)
      | ok st1 =>
          rw [hstep] at h
          obtain ⟨t1, ht1⟩ := evalStep_followup_ext recur env e st st1 hstep
          obtain ⟨t2, ht2⟩ := ih st1 st' h
          exact ⟨t1 ++ t2, by rw [ht2, ht1, List.append_assoc]⟩

/-- One step of the followup loop when the head item resolves to a
non-empty body on an open conversation: the item is re-evaluated against
the scope as it stands at drain time, its nested queues are appended to
the live arrays, the resolved body is sent, and the whole grown every
queue is drained in full before the loop moves to the remaining
followups. -/
theorem followupGo_step (env : Env) (n fl : Nat) (i : QItem) (rest : List QItem)
    (st : Orch) (f : PromptResult) (c : String)
    (hf : getPromptF env n i.body st.vars = .ok f)
    (hne : ¬ (jsTrim f.body).length = 0)
    (hc : st.convo = true)
    (hcomp : env.completions st.sendIdx = some c) :
    followupGo env n (fl + 1) (i :: rest) st =
      (runEveries env n (st.every ++ f.every)
        { vars := scopeSet f.vars "claude_response" (.vCompletion c)
          every := st.every ++ f.every
          convo := st.convo
          sendIdx := st.sendIdx + 1
          events := st.events ++ [.send f.body f.attachments] }) >>=
      (fun st3 => followupGo env n fl (rest ++ f.followup) st3) := by
  simp only [followupGo, hf, exBind_ok]
  rw [if_neg hne]
  simp only [hc, Bool.not_true, Bool.false_eq_true, if_false]
  rw [hcomp]

/-! ## Claims -/

/-- C1 counterexample: the claim says every template containing a block
with differing open/close names fails with a structural
(SyntaxError-class) error before any network call.  The mismatched-tag
template `\x7b#foo p\x7dx\x7b/bar\x7d` does not fail at all: the block
pass does not match it (the close tag is a backreference), no other pass
matches it either, and it evaluates successfully to itself. -/
theorem c1_counterexample :
    getPromptF env0 2 "\x7b#foo p\x7dx\x7b/bar\x7d" [] =
      .ok ⟨"\x7b#foo p\x7dx\x7b/bar\x7d", [], [], [], []⟩ := by decide

/-- C1 amended: the structural mismatch error is unreachable at every
recursion depth (the block pattern's close tag is a backreference to the
open name, so a differing close tag prevents the match instead of
raising the error); a mismatched open tag without parameter is re-read
as an inline command with undefined input and fails with a TypeError
during evaluation, before the orchestrator (and hence before any network
call); identical open/close names parse and evaluate without any
structural error. -/
theorem c1_amended :
    (∀ (env : Env) (n : Nat) (t : String) (vars : Scope),
      exceptNoMismatch (getPromptF env n t vars) = true)
    ∧ getPromptF env0 2 "\x7b#foo\x7dx\x7b/bar\x7d" [] =
        .error (.typeError "cannot read properties of undefined, reading replace")
    ∧ templateRun env0 2 2 "\x7b#foo\x7dx\x7b/bar\x7d" [] =
        .error (.typeError "cannot read properties of undefined, reading replace")
    ∧ getPromptF env0 2 "\x7b#foo\x7dx\x7b/foo\x7d" [] =
        .ok ⟨"\nfoo(x)\n", [], [], [],
          [("response", .vStr "foo(x)"), ("result", .vStr "foo(x)")]⟩ :=
  ⟨fun env n t vars => getPromptF_noMismatch env n t vars,
   by decide, by decide, by decide⟩

/-- C2 counterexample: the claim says an unbound variable read appends
the empty string.  Evaluating `\x7bx\x7d` with an empty scope appends
the JavaScript coercion of `undefined` instead: the body is
`"\nundefined\n"`, not the `"\n"` an empty substitution would give. -/
theorem c2_counterexample :
    (getPromptF env0 1 "\x7bx\x7d" []).map (fun r => r.body) = .ok "\nundefined\n"
    ∧ ("\nundefined\n" : String) ≠ "\n" := by decide

/-- C2 amended: for every scope in which the name is unbound, a
variableRead node appends the string "undefined" (the JS coercion of
`undefined` under `+=`) to the accumulated body — not the empty string —
and does not error; `response` and `result` are refreshed to the empty
string. -/
theorem c2_amended (recur : String → Scope → Except Err PromptResult)
    (env : Env) (name : String) (st : EvalSt)
    (h : scopeLookup st.vars name = none) :
    evalStep recur env (Sum.inr (Node.varRead name)) st =
      .ok { st with
            text := st.text ++ "undefined"
            vars := scopeSet (scopeSet st.vars "response" (.vStr ""))
              "result" (.vStr "") } := by
  rw [evalStep_varRead, h]

/-- C2 witness: the amended statement applied at the unbound name `x`
in the empty scope. -/
theorem c2_witness :
    evalStep (fun _ _ => Except.error Err.fuelExhausted) env0
      (Sum.inr (Node.varRead "x")) ⟨"", [], [], [], []⟩ =
      .ok ⟨"" ++ "undefined", [], [], [],
        scopeSet (scopeSet [] "response" (.vStr "")) "result" (.vStr "")⟩ :=
  c2_amended (fun _ _ => Except.error Err.fuelExhausted) env0 "x"
    ⟨"", [], [], [], []⟩ rfl

/-- C3 counterexample: the claim says followup/every nodes queue the
raw, unevaluated body with no variable substitution at definition time.
For the inline form `\x7b#followup "A\x7bx\x7dB"/\x7d` the argument is
JSON-parsed and variable-substituted when the node is evaluated: with
`x` set to `5` the queued body is `"A5B"`, not the raw text. -/
theorem c3_counterexample :
    (getPromptF env0 2 "\x7bx=5\x7d\x7b#followup \"A\x7bx\x7dB\"/\x7d" []).map
        (fun r => r.followup) = .ok [⟨"A5B"⟩]
    ∧ ("A5B" : String) ≠ "A\x7bx\x7dB"
    ∧ ("A5B" : String) ≠ "\"A\x7bx\x7dB\"" := by decide

/-- C3 amended: `followup`/`every` *block* nodes queue their raw body
with no recursive evaluation and no substitution (the step equations
hold for every `recur`, so the recursive evaluator is never consulted,
and the queued body is the node's body verbatim); *inline* followup and
every commands queue their argument after `JSON.parse` and the
lightweight definition-time variable substitution; in both cases the
queued text is parsed and evaluated only when the orchestrator drains
the queue, against the scope at drain time — concretely, a followup body
`Q\x7by\x7d` queued before `\x7by=1\x7d` executes resolves to `Q1` when
drained. -/
theorem c3_amended :
    (∀ (recur : String → Scope → Except Err PromptResult) (env : Env)
      (param : Option String) (b : String) (st : EvalSt),
      evalStep recur env (Sum.inr (Node.block "followup" param none b)) st =
        .ok { st with
              followup := st.followup ++ [⟨b⟩]
              vars := scopeSet (scopeSet st.vars "response" (.vStr ""))
                "result" (.vStr "") })
    ∧ (∀ (recur : String → Scope → Except Err PromptResult) (env : Env)
      (param : Option String) (b : String) (st : EvalSt),
      evalStep recur env (Sum.inr (Node.block "every" param none b)) st =
        .ok { st with
              every := st.every ++ [⟨b⟩]
              vars := scopeSet (scopeSet st.vars "response" (.vStr ""))
                "result" (.vStr "") })
    ∧ (∀ (recur : String → Scope → Except Err PromptResult) (env : Env)
      (s : String) (st : EvalSt),
      evalStep recur env (Sum.inr (Node.cmd "followup" (some s) none)) st =
        .ok { st with
              followup := st.followup ++
                [⟨simpleVarReplace st.vars ((jsonParseString s).getD s)⟩]
              vars := scopeSet (scopeSet st.vars "response" (.vStr ""))
                "result" (.vStr "") })
    ∧ (∀ (recur : String → Scope → Except Err PromptResult) (env : Env)
      (s : String) (st : EvalSt),
      evalStep recur env (Sum.inr (Node.cmd "every" (some s) none)) st =
        .ok { st with
              every := st.every ++
                [⟨simpleVarReplace st.vars ((jsonParseString s).getD s)⟩]
              vars := scopeSet (scopeSet st.vars "response" (.vStr ""))
                "result" (.vStr "") })
    ∧ (getPromptF envC 3 "hi\x7b#followup\x7dQ\x7by\x7d\x7b/followup\x7d\x7by=1\x7d"
        []).map (fun r => r.followup) = .ok [⟨"Q\x7by\x7d"⟩]
    ∧ (templateRun envC 3 4
        "hi\x7b#followup\x7dQ\x7by\x7d\x7b/followup\x7d\x7by=1\x7d" []).map
        (fun o => o.events) = .ok [.start "hi\n" [], .send "Q1\n" []] :=
  ⟨evalStep_blockFollowup, evalStep_blockEvery, evalStep_inlineFollowup,
   evalStep_inlineEvery, by decide, by decide⟩

/-- C4 counterexample: the claim says a non-deferred block merges all
four side channels of its nested result, including everyItems.  The
template `\x7b#x\x7d\x7b#every\x7de\x7b/every\x7d\x7b/x\x7d` queues an
every item inside the nested body, yet the outer result's every queue is
empty: the nested every channel is dropped. -/
theorem c4_counterexample :
    (getPromptF env0 2 "\x7b#x\x7d\x7b#every\x7de\x7b/every\x7d\x7b/x\x7d" []).map
        (fun r => r.every) = .ok []
    ∧ ([] : List QItem) ≠ [⟨"e"⟩] := by decide

/-- C4 amended: a block whose command is neither followup nor every
first evaluates its body recursively against the same scope object, and
merges the nested result's attachments, followups and variables — but
*not* its everyItems, which are discarded — into the outer state before
dispatching the block's command on the nested resolved body. -/
theorem c4_amended (recur : String → Scope → Except Err PromptResult)
    (env : Env) (st : EvalSt) (c : String) (param : Option String)
    (vn : Option String) (body : String) (ran : PromptResult)
    (h1 : c ≠ "followup") (h2 : c ≠ "every")
    (hrec : recur body st.vars = .ok ran) :
    dispatchNode recur env (Node.block c param vn body) st =
      runCommand env c (scopeAssign ran.vars ran.vars) ran.body param >>= fun r =>
        .ok (r, { st with
          vars := scopeAssign ran.vars ran.vars
          attachments := st.attachments ++ ran.attachments
          followup := st.followup ++ ran.followup }) := by
  simp only [dispatchNode]
  rw [if_neg (by simp [h1, h2]), hrec]
  simp only [exBind_ok]

/-- C4 witness: the amended statement applied to a block `x` whose body
queues one every item; the dispatch drops it. -/
theorem c4_witness :
    dispatchNode (getPromptF env0 1) env0
      (Node.block "x" none none "\x7b#every\x7de\x7b/every\x7d")
      ⟨"", [], [], [], []⟩ =
      runCommand env0 "x"
        (scopeAssign ([("response", Value.vStr ""), ("result", Value.vStr "")])
          ([("response", Value.vStr ""), ("result", Value.vStr "")]))
        "\n" none >>= fun r =>
        .ok (r, { text := ""
                  attachments := ([] : List Attachment) ++ []
                  followup := ([] : List QItem) ++ []
                  every := []
                  vars := scopeAssign
                    ([("response", Value.vStr ""), ("result", Value.vStr "")])
                    ([("response", Value.vStr ""), ("result", Value.vStr "")]) }) :=
  c4_amended (getPromptF env0 1) env0 ⟨"", [], [], [], []⟩ "x" none none
    "\x7b#every\x7de\x7b/every\x7d"
    ⟨"\n", [], [], [⟨"e"⟩], [("response", Value.vStr ""), ("result", Value.vStr "")]⟩
    (by decide) (by decide) (by decide)

/-- C5 counterexample: the claim says a dispatched block node with a
bound variable contributes no text to the body.  The bound block
`\x7b#zzz v=p\x7dhi\x7b/zzz\x7d` binds `v` but its dispatch text
`zzz(hi)` is still echoed into the body: the body is `"\nzzz(hi)\n"`,
not the `"\n"` that suppression would give. -/
theorem c5_counterexample :
    (getPromptF env0 2 "\x7b#zzz v=p\x7dhi\x7b/zzz\x7d" []).map
        (fun r => (r.body, scopeLookup r.vars "v")) =
      .ok ("\nzzz(hi)\n", some (.vStr "zzz(hi)"))
    ∧ ("\nzzz(hi)\n" : String) ≠ "\n" := by decide

/-- C5 amended: the body-echo suppression for bound variables applies to
dispatched *inline command* nodes (other than import), not to block
nodes — a bound inline command contributes no text; the result binding
into `scope[boundVar]` happens for every dispatched node that declares a
bound variable (block or inline): after the step the bound variable and
the refreshed `response` hold the same value.  Block nodes with a bound
variable still echo their dispatch text, as the counterexample shows. -/
theorem c5_amended :
    (∀ (recur : String → Scope → Except Err PromptResult) (env : Env)
      (c s w : String) (st st' : EvalSt), c ≠ "import" →
      evalStep recur env (Sum.inr (Node.cmd c (some s) (some w))) st = .ok st' →
      st'.text = st.text)
    ∧ (∀ (recur : String → Scope → Except Err PromptResult) (env : Env)
      (node : Node) (st st' : EvalSt) (w : String),
      nodeVarName node = some w →
      evalStep recur env (Sum.inr node) st = .ok st' →
      ∃ v, scopeLookup st'.vars "response" = some v ∧
        scopeLookup st'.vars w = some v) :=
  ⟨evalStep_inline_suppresses, evalStep_bound_response⟩

/-- C5 witness: the amended statement applied to a bound inline command
(no text echoed) and to a bound block (variable bound to the response
value). -/
theorem c5_witness :
    ((⟨"T", [], [], [],
        [("response", Value.vStr ""), ("result", Value.vStr ""),
         ("v", Value.vStr "")]⟩ : EvalSt).text = (⟨"T", [], [], [], []⟩ : EvalSt).text)
    ∧ (∃ v, scopeLookup
        ([("response", Value.vStr "zzz(hi)"), ("result", Value.vStr "zzz(hi)"),
          ("w", Value.vStr "zzz(hi)")] : Scope) "response" = some v ∧
        scopeLookup
        ([("response", Value.vStr "zzz(hi)"), ("result", Value.vStr "zzz(hi)"),
          ("w", Value.vStr "zzz(hi)")] : Scope) "w" = some v) := by
  constructor
  · exact c5_amended.1 (fun _ _ => Except.error Err.fuelExhausted) env0
      "qqq" "\"hi\"" "v" ⟨"T", [], [], [], []⟩ _ (by decide) (by decide)
  · exact c5_amended.2 (getPromptF env0 1) env0
      (Node.block "zzz" (some "p") (some "w") "hi") ⟨"", [], [], [], []⟩
      ⟨"zzz(hi)", [], [], [],
        [("response", Value.vStr "zzz(hi)"), ("result", Value.vStr "zzz(hi)"),
         ("w", Value.vStr "zzz(hi)")]⟩ "w" (by decide) (by decide)

/-- C6: the followup queue preserves document order — the evaluator only
ever appends to it, the claim's example yields the queue `[a, b]`, and
the orchestrator sends `a` before `b`, each exchange awaited before the
next is processed. -/
theorem c6_fifo_followups :
    (∀ (recur : String → Scope → Except Err PromptResult) (env : Env)
      (elems : List Elem) (st st' : EvalSt),
      evalElemsGo recur env elems st = .ok st' →
      ∃ t, st'.followup = st.followup ++ t)
    ∧ (getPromptF env0 2
        "\x7b#followup\x7da\x7b/followup\x7d\x7b#followup\x7db\x7b/followup\x7d"
        []).map (fun r => r.followup) = .ok [⟨"a"⟩, ⟨"b"⟩]
    ∧ (templateRun envC 3 4
        "hello\x7b#followup\x7da\x7b/followup\x7d\x7b#followup\x7db\x7b/followup\x7d"
        []).map (fun o => o.events) =
      .ok [.start "hello\n" [], .send "a" [], .send "b" []] :=
  ⟨fun recur env => evalElemsGo_followup_ext recur env, by decide, by decide⟩

/-- C6 witness: the order-preservation conjunct applied to a concrete
one-element sequence. -/
theorem c6_witness :
    ∃ t, (⟨"", [], [⟨"a"⟩], [],
      [("response", Value.vStr ""), ("result", Value.vStr "")]⟩ : EvalSt).followup =
      ([] : List QItem) ++ t :=
  c6_fifo_followups.1 (fun _ _ => Except.error Err.fuelExhausted) env0
    [Sum.inr (Node.block "followup" none none "a")] ⟨"", [], [], [], []⟩ _
    (by decide)

/-- C7: every-items queued before the first response are sent once after
the initial response and again after each followup's response, in
preserved queuing order, the queue being drained in full before the next
followup is processed.  The first conjunct is the general loop step: a
followup that resolves non-empty is sent and the whole (possibly grown)
every queue is drained before the remaining followups run.  The
remaining conjuncts exhibit the schedule on concrete runs: two every
items alone are sent once after the initial response in order; with two
followups they are re-sent, in order, after each followup response. -/
theorem c7_every_schedule :
    (∀ (env : Env) (n fl : Nat) (i : QItem) (rest : List QItem)
      (st : Orch) (f : PromptResult) (c : String),
      getPromptF env n i.body st.vars = .ok f →
      ¬ (jsTrim f.body).length = 0 →
      st.convo = true →
      env.completions st.sendIdx = some c →
      followupGo env n (fl + 1) (i :: rest) st =
        (runEveries env n (st.every ++ f.every)
          { vars := scopeSet f.vars "claude_response" (.vCompletion c)
            every := st.every ++ f.every
            convo := st.convo
            sendIdx := st.sendIdx + 1
            events := st.events ++ [.send f.body f.attachments] }) >>=
        (fun st3 => followupGo env n fl (rest ++ f.followup) st3))
    ∧ (templateRun envC 3 4 "hi\x7b#every\x7dE1\x7b/every\x7d\x7b#every\x7dE2\x7b/every\x7d"
        []).map (fun o => o.events) =
      .ok [.start "hi\n" [], .send "E1" [], .send "E2" []]
    ∧ (templateRun envC 3 4
        "hi\x7b#every\x7dE1\x7b/every\x7d\x7b#every\x7dE2\x7b/every\x7d\x7b#followup\x7df1\x7b/followup\x7d\x7b#followup\x7df2\x7b/followup\x7d"
        []).map (fun o => o.events) =
      .ok [.start "hi\n" [], .send "E1" [], .send "E2" [], .send "f1" [],
           .send "E1" [], .send "E2" [], .send "f2" [],
           .send "E1" [], .send "E2" []] :=
  ⟨followupGo_step, by decide, by decide⟩

/-- C7 witness: the loop-step conjunct applied to a concrete followup on
an open conversation with one pending every item. -/
theorem c7_witness :
    followupGo envC 3 (0 + 1) [⟨"f"⟩]
      ⟨[("response", Value.vStr "OK")], [⟨"E"⟩], true, 1, [.start "hi" []]⟩ =
      (runEveries envC 3 ([⟨"E"⟩] ++ [])
        { vars := scopeSet ([("response", Value.vStr "OK")]) "claude_response"
            (.vCompletion "RESP1")
          every := [⟨"E"⟩] ++ []
          convo := true
          sendIdx := 1 + 1
          events := [Event.start "hi" []] ++ [.send "f" []] }) >>=
      (fun st3 => followupGo envC 3 0 ([] ++ []) st3) :=
  c7_every_schedule.1 envC 3 0 ⟨"f"⟩ []
    ⟨[("response", Value.vStr "OK")], [⟨"E"⟩], true, 1, [.start "hi" []]⟩
    ⟨"f", [], [], [], [("response", Value.vStr "OK")]⟩ "RESP1"
    (by decide) (by decide) rfl (by decide)

/-- C8: a prompt whose resolved body is empty or whitespace-only with
empty followup and every queues leads to no conversation interface call
at all: the orchestrator opens no conversation, sends no message, and
returns with an empty transcript. -/
theorem c8_empty_no_network (env : Env) (n fl : Nat) (vars : Scope)
    (atts : List Attachment) (body : String) (dr : Bool)
    (h : jsTrim body = "") :
    (runPromptF env n fl ⟨body, atts, [], [], vars⟩ dr).map
      (fun o => (o.events, o.convo, o.sendIdx)) = .ok ([], false, 0) := by
  have hlen : ((jsTrim body).length = 0) := by rw [h]; rfl
  cases dr with
  | true =>
      simp only [runPromptF, jsArrTruthy, Bool.or_true, Bool.not_true,
        Bool.false_eq_true, if_false, runEveries, followupGo, exBind_ok]
      rfl
  | false =>
      simp only [runPromptF, jsArrTruthy, Bool.or_true, Bool.not_true,
        Bool.false_eq_true, if_false]
      rw [if_neg (by simpa using hlen)]
      simp only [runEveries, followupGo, exBind_ok]
      rfl

/-- C8 witness: the statement applied to a whitespace-only body. -/
theorem c8_witness :
    (runPromptF env0 1 1 ⟨" ", [], [], [], []⟩ false).map
      (fun o => (o.events, o.convo, o.sendIdx)) = .ok ([], false, 0) :=
  c8_empty_no_network env0 1 1 [] [] " " false (by decide)

/-- C9: dispatching any command name outside the fixed handler table
never raises an error and returns exactly the pass-through placeholder
`command(arg)` as the body, with no other side channels. -/
theorem c9_unknown_passthrough (env : Env) (c : String) (vars : Scope)
    (arg : String) (param : Option String)
    (_h1 : c ≠ "import") (h2 : c ≠ "js") (h3 : c ≠ "jsdisplay")
    (h4 : c ≠ "jsd") (h5 : c ≠ "file") (h6 : c ≠ "writefile")
    (h7 : c ≠ "followup") (h8 : c ≠ "every") (h9 : c ≠ "claude") :
    runCommand env c vars arg param =
      .ok { body := some (.vStr (c ++ "(" ++ arg ++ ")")) } := by
  simp [runCommand, h2, h3, h4, h5, h6, h7, h8, h9]

/-- C9 witness: the statement applied to the unknown command `shout`. -/
theorem c9_witness :
    runCommand env0 "shout" [] "hi" none =
      .ok { body := some (.vStr "shout(hi)") } :=
  c9_unknown_passthrough env0 "shout" [] "hi" none (by decide) (by decide)
    (by decide) (by decide) (by decide) (by decide) (by decide) (by decide)
    (by decide)

/-- C10: after the evaluator processes a variableRead or variableWrite
node, the scope entries `response` and `result` are both overwritten
with the empty string, so a previous command's result is clobbered by a
subsequent plain variable read or write — demonstrated concretely: after
`\x7b#jsdisplay "1+1"/\x7d` the response is the js value `2`, and the
following `\x7bq=7\x7d` resets both `response` and `result` to the empty
string. -/
theorem c10_response_clobber :
    (∀ (recur : String → Scope → Except Err PromptResult) (env : Env)
      (name : String) (st : EvalSt),
      evalStep recur env (Sum.inr (Node.varRead name)) st =
        .ok { st with
          text := st.text ++ (match scopeLookup st.vars name with
            | some v => vToString v
            | none => "undefined")
          vars := scopeSet (scopeSet st.vars "response" (.vStr ""))
            "result" (.vStr "") })
    ∧ (∀ (recur : String → Scope → Except Err PromptResult) (env : Env)
      (name v : String) (st : EvalSt),
      evalStep recur env (Sum.inr (Node.varSet name v)) st =
        .ok { st with
          vars := scopeSet (scopeSet (scopeSet st.vars name (.vStr v))
            "response" (.vStr "")) "result" (.vStr "") })
    ∧ (getPromptF envJS 2 "\x7b#jsdisplay \"1+1\"/\x7d\x7bq=7\x7d" []).map
        (fun r => (r.body, scopeLookup r.vars "response",
          scopeLookup r.vars "result")) =
      .ok ("\n2\n", some (.vStr ""), some (.vStr "")) :=
  ⟨evalStep_varRead, evalStep_varSet, by decide⟩

end TemplateEngine
